import Mathlib

/-!
Shallow embedding of the shape-morph engine of `src/motion.js` (hero
services carousel).  Coordinates are modelled as rationals; the JS code
performs the same field operations on IEEE doubles, and every claim
settled here is about the exact algebraic algorithm.  DOM-measurement
primitives (`getTotalLength`, `getPointAtLength`, `getBBox`) are
parameters of the sampler, since they are supplied by the browser, not
by this repository.
-/

namespace Lantrn

/-- A 2D point `[x, y]`, as pushed by `normalizePoints`. -/
abbrev Point : Type := ℚ × ℚ

/-- Axis-aligned bounding box as returned by `getBBox()`. -/
structure BBox where
  x : ℚ
  y : ℚ
  width : ℚ
  height : ℚ
deriving DecidableEq

/-- Embedding of `normalizePoints` (src/motion.js:491-503).  The DOM
path object is abstracted by the measured total length `len`
(`getTotalLength`), the point-at-arc-length oracle `pAt`
(`getPointAtLength`) and the measured bounding box `bbox` (`getBBox`).
The loop body is translated verbatim: sample at `(len * i) / (sampleCount - 1)`
and normalize each coordinate into the 200×200 frame.  Note the source
has no degeneracy guard: when `bbox.width` (or `height`) is zero the JS
division yields non-finite numbers; here rational division by zero
yields `0`.  No claim settled below depends on the value of a division
by zero, only on the absence of any guard or failure path. -/
def normalizePoints (pAt : ℚ → Point) (len : ℚ) (bbox : BBox)
    (sampleCount : ℕ) : List Point :=
  (List.range sampleCount).map (fun (i : ℕ) =>
    let p := pAt ((len * (i : ℚ)) / ((sampleCount : ℚ) - 1))
    (((p.1 - bbox.x) / bbox.width) * 200, ((p.2 - bbox.y) / bbox.height) * 200))

/-- Embedding of `polygonArea` (src/motion.js:515-523): shoelace sum
over the closed cycle, indexing `pts[(i + 1) % pts.length]`, halved at
the end. -/
def polygonArea (pts : List Point) : ℚ :=
  ((List.range pts.length).foldl (fun sum i =>
    let p1 := pts.getD i (0, 0)
    let p2 := pts.getD ((i + 1) % pts.length) (0, 0)
    sum + (p1.1 * p2.2 - p2.1 * p1.2)) 0) / 2

/-- Embedding of `normalizeWinding` (src/motion.js:525-529):
`isClockwise = polygonArea(pts) < 0`; return `pts` unchanged if the
orientation already matches the requested flag, otherwise a reversed
copy (`pts.slice().reverse()`). -/
def normalizeWinding (pts : List Point) (clockwise : Bool) : List Point :=
  let isClockwise := decide (polygonArea pts < 0)
  if isClockwise = clockwise then pts else pts.reverse

/-- Squared point-to-point distance, as accumulated by the inner loop of
`rotateToMatch` (`dx*dx + dy*dy`, src/motion.js:639-641). -/
def squaredDistance (p q : Point) : ℚ :=
  (p.1 - q.1) * (p.1 - q.1) + (p.2 - q.2) * (p.2 - q.2)

/-- Embedding of the inner score loop of `rotateToMatch`
(src/motion.js:635-642): for a candidate `offset`, sum the squared
distances between `fromPts[i]` and `toPts[(i + offset) % len]` where
`len = fromPts.length`. -/
def rotScore (fromPts toPts : List Point) (offset : ℕ) : ℚ :=
  (List.range fromPts.length).foldl (fun score i =>
    let f := fromPts.getD i (0, 0)
    let t := toPts.getD ((i + offset) % fromPts.length) (0, 0)
    score + ((f.1 - t.1) * (f.1 - t.1) + (f.2 - t.2) * (f.2 - t.2))) 0

/-- Embedding of the outer argmin scan of `rotateToMatch`
(src/motion.js:632-647).  The accumulator holds
`(bestOffset, bestScore)`; `none` models the initial
`bestScore = Infinity`, and the update fires on the strict comparison
`score < bestScore`, so ties keep the earlier offset. -/
def bestScan (g : ℕ → ℚ) (n : ℕ) : ℕ × Option ℚ :=
  (List.range n).foldl (fun acc o =>
    match acc.2 with
    | none => (o, some (g o))
    | some b => if g o < b then (o, some (g o)) else acc) (0, none)

/-- The `bestOffset` selected by `rotateToMatch` for a given pair. -/
def bestOffsetOf (fromPts toPts : List Point) : ℕ :=
  (bestScan (rotScore fromPts toPts) fromPts.length).1

/-- Embedding of `rotateToMatch` (src/motion.js:630-649): re-index a
fresh copy of `toPts` by the winning offset,
`toPts.map((_, i) => toPts[(i + bestOffset) % len])`. -/
def rotateToMatch (fromPts toPts : List Point) : List Point :=
  toPts.mapIdx (fun i _ =>
    toPts.getD ((i + bestOffsetOf fromPts toPts) % fromPts.length) (0, 0))

/-- Embedding of the per-frame interpolation in the tween `onUpdate`
(src/motion.js:660-663):
`from.map((p, i) => [p0 + (to[i][0] - p0) * t, p1 + (to[i][1] - p1) * t])`
where `t` is the current (eased) `morphState.t`. -/
def interpPoints (fromPts toPts : List Point) (t : ℚ) : List Point :=
  fromPts.mapIdx (fun i p =>
    let q := toPts.getD i (0, 0)
    (p.1 + (q.1 - p.1) * t, p.2 + (q.2 - p.2) * t))

/-- State of the carousel morph engine: the precomputed `shapesPoints`
library, the mutable `shapeIndex` cursor, `morphState.t`, and the
active tween, recorded as its `(from, to)` pair (`none` when no tween
has been created).  `shapeIndex` is `Option ℤ`: `none` models the JS
value `NaN` that `(x + d + 0) % 0` produces. -/
structure MorphEngine where
  shapesPoints : List (List Point)
  shapeIndex : Option ℤ
  morphT : ℚ
  tween : Option (List Point × List Point)
deriving DecidableEq

/-- JS array read `xs[i]` for a possibly-NaN numeric index: `undefined`
(here `none`) on NaN, negative, or out-of-range indices. -/
def jsIndex (xs : List (List Point)) : Option ℤ → Option (List Point)
  | none => none
  | some v => if 0 ≤ v then xs.get? v.toNat else none

/-- The cursor update `shapeIndex = (shapeIndex + d + L) % L`
(src/motion.js:622).  JS `%` is the truncated remainder (`Int.tmod`)
and yields `NaN` (here `none`) when the modulus is `0` or the cursor is
already `NaN`. -/
def jsAdvanceIndex (idx : Option ℤ) (d L : ℤ) : Option ℤ :=
  match idx with
  | none => none
  | some v => if L = 0 then none else some (Int.tmod (v + d + L) L)

/-- Embedding of `morphShape` (src/motion.js:618-667).  Reads
`from = shapesPoints[shapeIndex]`, mutates the cursor by
`(shapeIndex + (dir === next ? 1 : -1) + L) % L`, reads the new target,
and — only if both reads produced arrays — aligns the target with
`rotateToMatch`, kills any in-flight tween, resets `morphState.t = 0`
and installs the new tween.  When either read is `undefined` the
function returns early, after the cursor mutation (and the `updateDots`
DOM call, not modelled) have already happened. -/
def morphShape (e : MorphEngine) (dirNext : Bool) : MorphEngine :=
  let fromOpt := jsIndex e.shapesPoints e.shapeIndex
  let L : ℤ := e.shapesPoints.length
  let idx2 := jsAdvanceIndex e.shapeIndex (if dirNext then 1 else -1) L
  let toOpt := jsIndex e.shapesPoints idx2
  match fromOpt, toOpt with
  | some f, some t0 =>
    { e with shapeIndex := idx2, morphT := 0,
             tween := some (f, rotateToMatch f t0) }
  | _, _ => { e with shapeIndex := idx2 }

/-- The point set emitted by the tween `onUpdate` callback at the
engine's current `morphState.t` (src/motion.js:659-664); `none` when no
tween exists. -/
def emitPoints (e : MorphEngine) : Option (List Point) :=
  e.tween.map (fun ft => interpPoints ft.1 ft.2 e.morphT)

/-! Store-passing model of JS array mutation, used to settle the
frame-effect claim: arrays live in a store indexed by references, reads
and in-place writes go through the store, and `slice()` / `map()`
allocate fresh arrays at fresh references. -/

/-- A reference to a JS array. -/
abbrev Ref : Type := ℕ

/-- A store of allocated point arrays. -/
abbrev Store : Type := List (List Point)

/-- Dereference a JS array. -/
def readRef (s : Store) (r : Ref) : List Point := s.getD r []

/-- Allocate a fresh array holding `v`, returning the new store and the
fresh reference. -/
def alloc (s : Store) (v : List Point) : Store × Ref := (s ++ [v], s.length)

/-- Store-level embedding of `normalizeWinding` (src/motion.js:525-529):
when the orientation already matches, the argument reference itself is
returned and the store is untouched; otherwise `pts.slice()` allocates
a fresh copy and `.reverse()` mutates that copy in place. -/
def normalizeWindingImp (s : Store) (r : Ref) (clockwise : Bool) :
    Store × Ref :=
  let pts := readRef s r
  let isClockwise := decide (polygonArea pts < 0)
  if isClockwise = clockwise then (s, r)
  else
    let sliced := alloc s (readRef s r)
    (sliced.1.set sliced.2 (readRef sliced.1 sliced.2).reverse, sliced.2)

/-- Store-level embedding of `rotateToMatch` (src/motion.js:630-649):
the scan only reads both arrays, and the final
`toPts.map((_, i) => toPts[(i + bestOffset) % len])` allocates a fresh
result array. -/
def rotateToMatchImp (s : Store) (rf rt : Ref) : Store × Ref :=
  alloc s (rotateToMatch (readRef s rf) (readRef s rt))

/-! Specification-side definitions.  These follow the spec's wording
(closed-form shoelace sum, branch on orientation mismatch) and are
compared with the source-translated definitions above. -/

/-- One summand of the shoelace formula:
`x_i * y_{(i+1) mod N} - x_{(i+1) mod N} * y_i`. -/
def shoelaceTerm (pts : List Point) (i : ℕ) : ℚ :=
  (pts.getD i (0, 0)).1 * (pts.getD ((i + 1) % pts.length) (0, 0)).2
    - (pts.getD ((i + 1) % pts.length) (0, 0)).1 * (pts.getD i (0, 0)).2

/-- The signed polygon area as the spec words it: the shoelace formula
over the full point cycle, wrapping index `N-1` back to `0`, halved. -/
def specSignedArea (pts : List Point) : ℚ :=
  (∑ i ∈ Finset.range pts.length, shoelaceTerm pts i) / 2

/-- Winding normalization as the spec words it: negative signed area
means clockwise; reverse exactly when the orientation does not match
the requested flag. -/
def specNormalizeWinding (pts : List Point) (clockwise : Bool) : List Point :=
  if decide (specSignedArea pts < 0) = clockwise then pts else pts.reverse

end Lantrn

namespace Lantrn

/-! Helper lemmas. -/

/-- A left fold that only accumulates additions is a sum. -/
theorem foldl_add_eq_sum (g : ℕ → ℚ) :
    ∀ (l : List ℕ) (a : ℚ), l.foldl (fun s i => s + g i) a = a + (l.map g).sum := by
  intro l
  induction l with
  | nil => intro a; simp
  | cons x xs ih => intro a; simp only [List.foldl_cons, List.map_cons, List.sum_cons, ih]; ring

/-- Summing a function over `List.range` equals the `Finset.range` sum. -/
theorem sum_map_range (g : ℕ → ℚ) (n : ℕ) :
    ((List.range n).map g).sum = ∑ i ∈ Finset.range n, g i := by
  induction n with
  | zero => simp
  | succ n ih =>
    rw [List.range_succ, Finset.sum_range_succ, List.map_append, List.sum_append]
    simp [ih]

/-- Reading the reversed list at `i` reads the original at `N - 1 - i`. -/
theorem getD_reverse (pts : List Point) (i : ℕ) (h : i < pts.length) (d : Point) :
    pts.reverse.getD i d = pts.getD (pts.length - 1 - i) d := by
  have h1 : i < pts.reverse.length := by simpa using h
  have h2 : pts.length - 1 - i < pts.length := by omega
  rw [List.getD_eq_getElem _ _ h1, List.getD_eq_getElem _ _ h2]
  simp

/-- The source's `polygonArea` fold computes exactly the closed-form
shoelace sum of the spec. -/
theorem polygonArea_eq_spec (pts : List Point) :
    polygonArea pts = specSignedArea pts := by
  have h : polygonArea pts
      = ((List.range pts.length).foldl (fun s i => s + shoelaceTerm pts i) 0) / 2 := rfl
  rw [h, foldl_add_eq_sum, sum_map_range, zero_add, specSignedArea]

/-- Reversing a point list negates its shoelace signed area. -/
theorem polygonArea_reverse (pts : List Point) :
    polygonArea pts.reverse = - polygonArea pts := by
  rcases Nat.eq_zero_or_pos pts.length with h0 | hpos
  · have hnil : pts = [] := List.eq_nil_of_length_eq_zero h0
    subst hnil
    rw [List.reverse_nil]
    have hz : polygonArea ([] : List Point) = 0 := by simp [polygonArea]
    rw [hz]; norm_num
  · obtain ⟨m, hm⟩ : ∃ m, pts.length = m + 1 := ⟨pts.length - 1, by omega⟩
    rw [polygonArea_eq_spec, polygonArea_eq_spec, specSignedArea, specSignedArea,
      List.length_reverse, hm]
    have hterm : ∀ i, i < m → shoelaceTerm pts.reverse i = - shoelaceTerm pts (m - 1 - i) := by
      intro i hi
      have hrl : pts.reverse.length = m + 1 := by simp [hm]
      have e1 : (i + 1) % (m + 1) = i + 1 := Nat.mod_eq_of_lt (by omega)
      have e2 : (m - 1 - i + 1) % (m + 1) = m - i := by
        have : m - 1 - i + 1 = m - i := by omega
        rw [this]; exact Nat.mod_eq_of_lt (by omega)
      have g1 : pts.reverse.getD i (0, 0) = pts.getD (m - i) (0, 0) := by
        rw [getD_reverse pts i (by omega)]; congr 1; omega
      have g2 : pts.reverse.getD (i + 1) (0, 0) = pts.getD (m - 1 - i) (0, 0) := by
        rw [getD_reverse pts (i + 1) (by omega)]; congr 1; omega
      simp only [shoelaceTerm, hrl, hm, e1, e2, g1, g2]
      ring
    have hlast : shoelaceTerm pts.reverse m = - shoelaceTerm pts m := by
      have hrl : pts.reverse.length = m + 1 := by simp [hm]
      have e1 : (m + 1) % (m + 1) = 0 := Nat.mod_self _
      have g1 : pts.reverse.getD m (0, 0) = pts.getD 0 (0, 0) := by
        rw [getD_reverse pts m (by omega)]; congr 1; omega
      have g2 : pts.reverse.getD 0 (0, 0) = pts.getD m (0, 0) := by
        rw [getD_reverse pts 0 (by omega)]; congr 1; omega
      simp only [shoelaceTerm, hrl, hm, e1, g1, g2]
      ring
    rw [Finset.sum_range_succ, Finset.sum_range_succ,
      Finset.sum_congr rfl (fun i hi => hterm i (Finset.mem_range.mp hi)), hlast]
    have hreflect : (∑ i ∈ Finset.range m, - shoelaceTerm pts (m - 1 - i))
        = - ∑ i ∈ Finset.range m, shoelaceTerm pts i := by
      rw [← Finset.sum_range_reflect (fun j => shoelaceTerm pts j) m, ← Finset.sum_neg_distrib]
    rw [hreflect]
    ring

/-- distinguishing fact used below: the source's branch condition. -/
theorem normalizeWinding_eq_branch (pts : List Point) (clockwise : Bool) :
    normalizeWinding pts clockwise
      = if decide (polygonArea pts < 0) = clockwise then pts else pts.reverse := rfl

/-- C2.  For every PointSet `p` and flag `clockwise`, the source's
`polygonArea` computes the spec's closed-cycle shoelace signed area
(wrapping `N-1` back to `0`), and `normalizeWinding` treats negative
signed area as clockwise, reverses the point order exactly when the
computed orientation does not match the requested flag, and otherwise
returns the input unchanged — i.e. it coincides with the spec-side
`specNormalizeWinding`. -/
theorem normalizeWinding_matches_spec (pts : List Point) (clockwise : Bool) :
    polygonArea pts = specSignedArea pts
      ∧ normalizeWinding pts clockwise = specNormalizeWinding pts clockwise := by
  refine ⟨polygonArea_eq_spec pts, ?_⟩
  rw [normalizeWinding_eq_branch, specNormalizeWinding, polygonArea_eq_spec]

/-- C3 counterexample.  For the degenerate (zero-area) point set
`[(0,0), (1,0), (2,0)]` and target orientation `clockwise = true`,
applying `normalizeWinding` twice does not agree with applying it once:
the first application reverses the list (area `0` is classified
counter-clockwise, mismatching the requested flag) and the second
application reverses it back. -/
theorem normalizeWinding_not_idempotent :
    ¬ (normalizeWinding
        (normalizeWinding [((0 : ℚ), (0 : ℚ)), (1, 0), (2, 0)] true) true
      = normalizeWinding [((0 : ℚ), (0 : ℚ)), (1, 0), (2, 0)] true) := by
  have har : polygonArea [((0 : ℚ), (0 : ℚ)), (1, 0), (2, 0)] = 0 := by
    have hr : List.range ([((0 : ℚ), (0 : ℚ)), (1, 0), (2, 0)].length) = [0, 1, 2] := rfl
    unfold polygonArea
    rw [hr]
    norm_num [List.foldl, List.getD]
  have e1 : normalizeWinding [((0 : ℚ), (0 : ℚ)), (1, 0), (2, 0)] true
      = [((2 : ℚ), (0 : ℚ)), (1, 0), (0, 0)] := by
    rw [normalizeWinding_eq_branch, har]
    norm_num
  have har2 : polygonArea [((2 : ℚ), (0 : ℚ)), (1, 0), (0, 0)] = 0 := by
    have hrev : ([((0 : ℚ), (0 : ℚ)), (1, 0), (2, 0)] : List Point).reverse
        = [((2 : ℚ), (0 : ℚ)), (1, 0), (0, 0)] := rfl
    rw [← hrev, polygonArea_reverse, har]
    norm_num
  have e2 : normalizeWinding [((2 : ℚ), (0 : ℚ)), (1, 0), (0, 0)] true
      = [((0 : ℚ), (0 : ℚ)), (1, 0), (2, 0)] := by
    rw [normalizeWinding_eq_branch, har2]
    norm_num
  rw [e1, e2]
  decide

/-- C3 amended.  `normalizeWinding` is idempotent for every PointSet
whose signed area is nonzero (and always when the requested orientation
is counter-clockwise, `clockwise = false`); normalizing an
already-correctly-oriented PointSet is always a no-op.  The only
failures are zero-area point sets with `clockwise = true`, as in the
counterexample. -/
theorem normalizeWinding_idempotent_amended (pts : List Point) (clockwise : Bool)
    (h : polygonArea pts ≠ 0 ∨ clockwise = false) :
    (decide (polygonArea pts < 0) = clockwise → normalizeWinding pts clockwise = pts)
      ∧ normalizeWinding (normalizeWinding pts clockwise) clockwise
        = normalizeWinding pts clockwise := by
  constructor
  · intro hb
    rw [normalizeWinding_eq_branch, if_pos hb]
  · by_cases hb : decide (polygonArea pts < 0) = clockwise
    · have e : normalizeWinding pts clockwise = pts := by
        rw [normalizeWinding_eq_branch, if_pos hb]
      rw [e]
      exact e
    · have e : normalizeWinding pts clockwise = pts.reverse := by
        rw [normalizeWinding_eq_branch, if_neg hb]
      rw [e]
      have hb2 : decide (polygonArea pts.reverse < 0) = clockwise := by
        rw [polygonArea_reverse]
        cases clockwise with
        | true =>
          have hge : ¬ polygonArea pts < 0 := by
            intro hlt
            exact hb (by simpa using hlt)
          have hne : polygonArea pts ≠ 0 := by
            rcases h with h | h
            · exact h
            · exact absurd h (by simp)
          have hgt : 0 < polygonArea pts := lt_of_le_of_ne (not_lt.mp hge) (Ne.symm hne)
          simpa using by linarith
        | false =>
          have hlt : polygonArea pts < 0 := by
            by_contra hge
            exact hb (by simpa using hge)
          simpa using by linarith
      rw [normalizeWinding_eq_branch pts.reverse, if_pos hb2]

/-- Witness for the amended C3 theorem at the counter-clockwise unit
triangle with `clockwise = true` (nonzero signed area `1/2`). -/
theorem normalizeWinding_idempotent_amended_witness :
    (decide (polygonArea [((0 : ℚ), (0 : ℚ)), (1, 0), (0, 1)] < 0) = true
        → normalizeWinding [((0 : ℚ), (0 : ℚ)), (1, 0), (0, 1)] true
          = [((0 : ℚ), (0 : ℚ)), (1, 0), (0, 1)])
      ∧ normalizeWinding
          (normalizeWinding [((0 : ℚ), (0 : ℚ)), (1, 0), (0, 1)] true) true
        = normalizeWinding [((0 : ℚ), (0 : ℚ)), (1, 0), (0, 1)] true := by
  have hval : polygonArea [((0 : ℚ), (0 : ℚ)), (1, 0), (0, 1)] = 1 / 2 := by
    have hr : List.range ([((0 : ℚ), (0 : ℚ)), (1, 0), (0, 1)].length) = [0, 1, 2] := rfl
    unfold polygonArea
    rw [hr]
    norm_num [List.foldl, List.getD]
  exact normalizeWinding_idempotent_amended [((0 : ℚ), (0 : ℚ)), (1, 0), (0, 1)] true
    (Or.inl (by rw [hval]; norm_num))

/-! Rotational alignment (C1). -/

/-- Unrolling the argmin scan by one offset. -/
theorem bestScan_succ (g : ℕ → ℚ) (n : ℕ) :
    bestScan g (n + 1)
      = match (bestScan g n).2 with
        | none => (n, some (g n))
        | some b => if g n < b then (n, some (g n)) else bestScan g n := by
  unfold bestScan
  rw [List.range_succ, List.foldl_append]
  simp only [List.foldl_cons, List.foldl_nil]

/-- Scan step when the fresh offset strictly improves the best score. -/
theorem bestScan_step_lt (g : ℕ → ℚ) (n : ℕ) (b : ℚ)
    (h : (bestScan g n).2 = some b) (hlt : g n < b) :
    bestScan g (n + 1) = (n, some (g n)) := by
  rw [bestScan_succ, h]
  simp [hlt]

/-- Scan step when the fresh offset does not strictly improve. -/
theorem bestScan_step_ge (g : ℕ → ℚ) (n : ℕ) (b : ℚ)
    (h : (bestScan g n).2 = some b) (hge : ¬ g n < b) :
    bestScan g (n + 1) = bestScan g n := by
  rw [bestScan_succ, h]
  simp [hge]

/-- The scan returns the first offset attaining the minimum score: the
chosen offset is in range, its score is recorded, it is a global
minimum over all scanned offsets, and every earlier offset scores
strictly worse. -/
theorem bestScan_spec (g : ℕ → ℚ) :
    ∀ n : ℕ, 0 < n →
      (bestScan g n).1 < n
      ∧ (bestScan g n).2 = some (g (bestScan g n).1)
      ∧ (∀ o, o < n → g (bestScan g n).1 ≤ g o)
      ∧ (∀ o, o < (bestScan g n).1 → g (bestScan g n).1 < g o) := by
  intro n
  induction n with
  | zero => intro h; exact absurd h (by omega)
  | succ n ih =>
    intro _
    rcases Nat.eq_zero_or_pos n with hn0 | hn
    · subst hn0
      have h1 : bestScan g 1 = (0, some (g 0)) := rfl
      rw [h1]
      refine ⟨Nat.zero_lt_one, rfl, ?_, ?_⟩
      · intro o ho
        have ho0 : o = 0 := by omega
        subst ho0
        exact le_refl _
      · intro o ho
        exact absurd ho (Nat.not_lt_zero o)
    · obtain ⟨ih1, ih2, ih3, ih4⟩ := ih hn
      by_cases hc : g n < g (bestScan g n).1
      · have hstep := bestScan_step_lt g n _ ih2 hc
        rw [hstep]
        refine ⟨Nat.lt_succ_self n, rfl, ?_, ?_⟩
        · intro o ho
          rcases Nat.lt_succ_iff_lt_or_eq.mp ho with h | h
          · exact le_of_lt (lt_of_lt_of_le hc (ih3 o h))
          · subst h; exact le_refl _
        · intro o ho
          exact lt_of_lt_of_le hc (ih3 o ho)
      · have hstep := bestScan_step_ge g n _ ih2 hc
        rw [hstep]
        refine ⟨Nat.lt_succ_of_lt ih1, ih2, ?_, ih4⟩
        intro o ho
        rcases Nat.lt_succ_iff_lt_or_eq.mp ho with h | h
        · exact ih3 o h
        · subst h; exact not_lt.mp hc

/-- The source's score fold computes the claimed sum of squared
point-to-point distances at a given offset. -/
theorem rotScore_eq_sum (fromPts toPts : List Point) (offset : ℕ) :
    rotScore fromPts toPts offset
      = ∑ i ∈ Finset.range fromPts.length,
          squaredDistance (fromPts.getD i (0, 0))
            (toPts.getD ((i + offset) % fromPts.length) (0, 0)) := by
  have h : rotScore fromPts toPts offset
      = (List.range fromPts.length).foldl
          (fun s i => s + squaredDistance (fromPts.getD i (0, 0))
            (toPts.getD ((i + offset) % fromPts.length) (0, 0))) 0 := rfl
  rw [h, foldl_add_eq_sum, sum_map_range, zero_add]

/-- The aligned output has the length of `toPts`. -/
theorem rotateToMatch_length (fromPts toPts : List Point) :
    (rotateToMatch fromPts toPts).length = toPts.length := by
  simp [rotateToMatch]

/-- Entry `i` of the aligned output is `toPts[(i + bestOffset) % len]`. -/
theorem rotateToMatch_getD (fromPts toPts : List Point) (i : ℕ)
    (hi : i < toPts.length) :
    (rotateToMatch fromPts toPts).getD i (0, 0)
      = toPts.getD ((i + bestOffsetOf fromPts toPts) % fromPts.length) (0, 0) := by
  have hlen : i < (rotateToMatch fromPts toPts).length := by
    rw [rotateToMatch_length]; exact hi
  rw [List.getD_eq_get _ _ hlen]
  unfold rotateToMatch at hlen ⊢
  rw [List.get_mapIdx toPts _ i hi]

/-- C1.  For equal-length point sets, `rotateToMatch` returns `toPts`
re-indexed by the offset minimizing
`score(o) = Σ_i squaredDistance(from[i], to[(i+o) mod N])` over all
offsets in `[0, N)`, ties broken by the smallest offset (first minimum
of the ascending scan): the result has `N` points with
`result[i] = to[(i + bestOffset) mod N]`, the score is the claimed sum
of squared distances, the chosen offset is in range and globally
minimal, and every smaller offset scores strictly worse. -/
theorem rotateToMatch_correct (fromPts toPts : List Point)
    (hlen : fromPts.length = toPts.length) (hpos : 0 < fromPts.length) :
    (rotateToMatch fromPts toPts).length = toPts.length
    ∧ (∀ i, i < toPts.length →
        (rotateToMatch fromPts toPts).getD i (0, 0)
          = toPts.getD ((i + bestOffsetOf fromPts toPts) % fromPts.length) (0, 0))
    ∧ (∀ o, rotScore fromPts toPts o
        = ∑ i ∈ Finset.range fromPts.length,
            squaredDistance (fromPts.getD i (0, 0))
              (toPts.getD ((i + o) % fromPts.length) (0, 0)))
    ∧ bestOffsetOf fromPts toPts < fromPts.length
    ∧ (∀ o, o < fromPts.length →
        rotScore fromPts toPts (bestOffsetOf fromPts toPts) ≤ rotScore fromPts toPts o)
    ∧ (∀ o, o < bestOffsetOf fromPts toPts →
        rotScore fromPts toPts (bestOffsetOf fromPts toPts) < rotScore fromPts toPts o) := by
  obtain ⟨h1, _h2, h3, h4⟩ := bestScan_spec (rotScore fromPts toPts) fromPts.length hpos
  exact ⟨rotateToMatch_length fromPts toPts,
    fun i hi => rotateToMatch_getD fromPts toPts i hi,
    fun o => rotScore_eq_sum fromPts toPts o, h1, h3, h4⟩

/-- Witness for C1 at a concrete pair: the four corners of the unit
square against the same corners listed from an offset start. -/
theorem rotateToMatch_correct_witness :
    ([((0 : ℚ), (0 : ℚ)), (1, 0), (1, 1), (0, 1)] : List Point).length
        = ([((1 : ℚ), (1 : ℚ)), (0, 1), (0, 0), (1, 0)] : List Point).length
    ∧ 0 < ([((0 : ℚ), (0 : ℚ)), (1, 0), (1, 1), (0, 1)] : List Point).length
    ∧ ((rotateToMatch [((0 : ℚ), (0 : ℚ)), (1, 0), (1, 1), (0, 1)]
          [((1 : ℚ), (1 : ℚ)), (0, 1), (0, 0), (1, 0)]).length
        = ([((1 : ℚ), (1 : ℚ)), (0, 1), (0, 0), (1, 0)] : List Point).length
      ∧ (∀ i, i < ([((1 : ℚ), (1 : ℚ)), (0, 1), (0, 0), (1, 0)] : List Point).length →
          (rotateToMatch [((0 : ℚ), (0 : ℚ)), (1, 0), (1, 1), (0, 1)]
              [((1 : ℚ), (1 : ℚ)), (0, 1), (0, 0), (1, 0)]).getD i (0, 0)
            = ([((1 : ℚ), (1 : ℚ)), (0, 1), (0, 0), (1, 0)] : List Point).getD
                ((i + bestOffsetOf [((0 : ℚ), (0 : ℚ)), (1, 0), (1, 1), (0, 1)]
                    [((1 : ℚ), (1 : ℚ)), (0, 1), (0, 0), (1, 0)])
                  % ([((0 : ℚ), (0 : ℚ)), (1, 0), (1, 1), (0, 1)] : List Point).length) (0, 0))
      ∧ (∀ o, rotScore [((0 : ℚ), (0 : ℚ)), (1, 0), (1, 1), (0, 1)]
            [((1 : ℚ), (1 : ℚ)), (0, 1), (0, 0), (1, 0)] o
          = ∑ i ∈ Finset.range ([((0 : ℚ), (0 : ℚ)), (1, 0), (1, 1), (0, 1)] : List Point).length,
              squaredDistance
                (([((0 : ℚ), (0 : ℚ)), (1, 0), (1, 1), (0, 1)] : List Point).getD i (0, 0))
                (([((1 : ℚ), (1 : ℚ)), (0, 1), (0, 0), (1, 0)] : List Point).getD
                  ((i + o) % ([((0 : ℚ), (0 : ℚ)), (1, 0), (1, 1), (0, 1)] : List Point).length)
                  (0, 0)))
      ∧ bestOffsetOf [((0 : ℚ), (0 : ℚ)), (1, 0), (1, 1), (0, 1)]
            [((1 : ℚ), (1 : ℚ)), (0, 1), (0, 0), (1, 0)]
          < ([((0 : ℚ), (0 : ℚ)), (1, 0), (1, 1), (0, 1)] : List Point).length
      ∧ (∀ o, o < ([((0 : ℚ), (0 : ℚ)), (1, 0), (1, 1), (0, 1)] : List Point).length →
          rotScore [((0 : ℚ), (0 : ℚ)), (1, 0), (1, 1), (0, 1)]
              [((1 : ℚ), (1 : ℚ)), (0, 1), (0, 0), (1, 0)]
              (bestOffsetOf [((0 : ℚ), (0 : ℚ)), (1, 0), (1, 1), (0, 1)]
                [((1 : ℚ), (1 : ℚ)), (0, 1), (0, 0), (1, 0)])
            ≤ rotScore [((0 : ℚ), (0 : ℚ)), (1, 0), (1, 1), (0, 1)]
                [((1 : ℚ), (1 : ℚ)), (0, 1), (0, 0), (1, 0)] o)
      ∧ (∀ o, o < bestOffsetOf [((0 : ℚ), (0 : ℚ)), (1, 0), (1, 1), (0, 1)]
            [((1 : ℚ), (1 : ℚ)), (0, 1), (0, 0), (1, 0)] →
          rotScore [((0 : ℚ), (0 : ℚ)), (1, 0), (1, 1), (0, 1)]
              [((1 : ℚ), (1 : ℚ)), (0, 1), (0, 0), (1, 0)]
              (bestOffsetOf [((0 : ℚ), (0 : ℚ)), (1, 0), (1, 1), (0, 1)]
                [((1 : ℚ), (1 : ℚ)), (0, 1), (0, 0), (1, 0)])
            < rotScore [((0 : ℚ), (0 : ℚ)), (1, 0), (1, 1), (0, 1)]
                [((1 : ℚ), (1 : ℚ)), (0, 1), (0, 0), (1, 0)] o)) :=
  ⟨rfl, by norm_num,
    rotateToMatch_correct [((0 : ℚ), (0 : ℚ)), (1, 0), (1, 1), (0, 1)]
      [((1 : ℚ), (1 : ℚ)), (0, 1), (0, 0), (1, 0)] rfl (by norm_num)⟩

/-! Path sampler (C4, C5). -/

/-- C4.  For every path-measurement oracle (`pAt`, total length `len`,
bounding box), and every `sampleCount ≥ 3`, `normalizePoints` returns
exactly `sampleCount` points; the `i`-th point is the normalization of
the path point sampled at arc-length position `len * i / (N - 1)`, so
the positions run `0, L/(N-1), ..., L` in traversal order, and when the
path is closed (`pAt len = pAt 0`) the last sample coincides with the
first. -/
theorem normalizePoints_samples (pAt : ℚ → Point) (len : ℚ) (bbox : BBox)
    (N : ℕ) (hN : 3 ≤ N) :
    (normalizePoints pAt len bbox N).length = N
    ∧ (∀ i, i < N →
        (normalizePoints pAt len bbox N).getD i (0, 0)
          = (((pAt ((len * i) / ((N : ℚ) - 1))).1 - bbox.x) / bbox.width * 200,
             ((pAt ((len * i) / ((N : ℚ) - 1))).2 - bbox.y) / bbox.height * 200))
    ∧ len * (0 : ℚ) / ((N : ℚ) - 1) = 0
    ∧ len * ((N : ℚ) - 1) / ((N : ℚ) - 1) = len
    ∧ (pAt len = pAt 0 →
        (normalizePoints pAt len bbox N).getD (N - 1) (0, 0)
          = (normalizePoints pAt len bbox N).getD 0 (0, 0)) := by
  have hne : ((N : ℚ) - 1) ≠ 0 := by
    have h3 : (3 : ℚ) ≤ (N : ℚ) := by exact_mod_cast hN
    intro hcontra
    have : (N : ℚ) = 1 := by linarith
    linarith
  have hlen0 : (normalizePoints pAt len bbox N).length = N := by
    unfold normalizePoints
    rw [List.length_map, List.length_range]
  have hget : ∀ i, i < N →
      (normalizePoints pAt len bbox N).getD i (0, 0)
        = (((pAt ((len * i) / ((N : ℚ) - 1))).1 - bbox.x) / bbox.width * 200,
           ((pAt ((len * i) / ((N : ℚ) - 1))).2 - bbox.y) / bbox.height * 200) := by
    intro i hi
    have hl : i < (normalizePoints pAt len bbox N).length := by
      rw [hlen0]; exact hi
    rw [List.getD_eq_getElem _ _ hl]
    unfold normalizePoints
    simp only [List.getElem_map, List.getElem_range]
  refine ⟨hlen0, hget, by simp, ?_, ?_⟩
  · rw [mul_div_assoc, div_self hne, mul_one]
  · intro hclosed
    have hlast := hget (N - 1) (by omega)
    have hfirst := hget 0 (by omega)
    have hcast : ((N - 1 : ℕ) : ℚ) = (N : ℚ) - 1 := by
      rw [Nat.cast_sub (by omega)]
      norm_num
    rw [hlast, hfirst, hcast, mul_div_assoc, div_self hne, mul_one, hclosed]
    norm_num

/-- Witness for C4 at `pAt = (fun q => (q, q))`, `len = 6`,
`bbox = ⟨0, 0, 2, 2⟩`, `N = 3`. -/
theorem normalizePoints_samples_witness :
    (3 : ℕ) ≤ 3
    ∧ ((normalizePoints (fun q => (q, q)) 6 ⟨0, 0, 2, 2⟩ 3).length = 3
      ∧ (∀ i, i < 3 →
          (normalizePoints (fun q => (q, q)) 6 ⟨0, 0, 2, 2⟩ 3).getD i (0, 0)
            = ((((fun (q : ℚ) => (q, q)) ((6 * i) / ((3 : ℚ) - 1))).1 - (0 : ℚ)) / 2 * 200,
               (((fun (q : ℚ) => (q, q)) ((6 * i) / ((3 : ℚ) - 1))).2 - (0 : ℚ)) / 2 * 200))
      ∧ (6 : ℚ) * (0 : ℚ) / ((3 : ℚ) - 1) = 0
      ∧ (6 : ℚ) * ((3 : ℚ) - 1) / ((3 : ℚ) - 1) = 6
      ∧ ((fun (q : ℚ) => (q, q)) (6 : ℚ) = (fun (q : ℚ) => (q, q)) (0 : ℚ) →
          (normalizePoints (fun q => (q, q)) 6 ⟨0, 0, 2, 2⟩ 3).getD (3 - 1) (0, 0)
            = (normalizePoints (fun q => (q, q)) 6 ⟨0, 0, 2, 2⟩ 3).getD 0 (0, 0))) :=
  ⟨le_refl 3, normalizePoints_samples (fun q => (q, q)) 6 ⟨0, 0, 2, 2⟩ 3 (le_refl 3)⟩

/-- C5 counterexample.  On a degenerate bounding box (zero width and
height), `normalizePoints` does not fail: it still returns a full
72-point list, because the source has no degeneracy guard before the
divisions `(p.x - bbox.x) / bbox.width`. -/
theorem normalizePoints_degenerate_returns :
    (normalizePoints (fun q => (q, q)) 5 ⟨0, 0, 0, 0⟩ 72).length = 72 := by
  unfold normalizePoints
  rw [List.length_map, List.length_range]

/-- C5 amended.  The sampler performs no degeneracy check: for every
oracle and every bounding box with zero width or zero height it still
returns a `sampleCount`-point list (in JS the coordinates are then
non-finite, as the normalization divides by zero), so non-degenerate
input is a precondition for the normalization formulas to be
meaningful. -/
theorem normalizePoints_no_guard_amended (pAt : ℚ → Point) (len : ℚ)
    (bbox : BBox) (N : ℕ) (hdeg : bbox.width = 0 ∨ bbox.height = 0) :
    (normalizePoints pAt len bbox N).length = N := by
  unfold normalizePoints
  rw [List.length_map, List.length_range]

/-- Witness for the amended C5 theorem at a zero-width box. -/
theorem normalizePoints_no_guard_amended_witness :
    ((⟨1, 2, 0, 3⟩ : BBox).width = 0 ∨ (⟨1, 2, 0, 3⟩ : BBox).height = 0)
    ∧ (normalizePoints (fun q => (q, 2 * q)) 7 ⟨1, 2, 0, 3⟩ 72).length = 72 :=
  ⟨Or.inl rfl,
    normalizePoints_no_guard_amended (fun q => (q, 2 * q)) 7 ⟨1, 2, 0, 3⟩ 72 (Or.inl rfl)⟩

/-! Interpolation (C6, C7). -/

/-- Entry `i` of the interpolated point set, for `i` in range. -/
theorem interpPoints_getD (fromPts toPts : List Point) (t : ℚ) (i : ℕ)
    (hi : i < fromPts.length) :
    (interpPoints fromPts toPts t).getD i (0, 0)
      = ((fromPts.getD i (0, 0)).1
            + ((toPts.getD i (0, 0)).1 - (fromPts.getD i (0, 0)).1) * t,
         (fromPts.getD i (0, 0)).2
            + ((toPts.getD i (0, 0)).2 - (fromPts.getD i (0, 0)).2) * t) := by
  have hl : i < (interpPoints fromPts toPts t).length := by
    simpa [interpPoints] using hi
  rw [List.getD_eq_get _ _ hl]
  unfold interpPoints
  rw [List.get_mapIdx fromPts _ i hi]
  rw [List.getD_eq_get _ _ hi]

/-- C6.  For equal-length point sets, the pointwise interpolation
`points[i] = from[i] + (to[i] - from[i]) * t` yields exactly `from` at
`t = 0` and exactly `to` at `t = 1`. -/
theorem interpPoints_boundary (fromPts toPts : List Point)
    (hlen : fromPts.length = toPts.length) :
    interpPoints fromPts toPts 0 = fromPts ∧ interpPoints fromPts toPts 1 = toPts := by
  constructor
  · apply List.ext_get (by simp [interpPoints])
    intro n h1 h2
    have hn : n < fromPts.length := by simpa [interpPoints] using h1
    unfold interpPoints
    rw [List.get_mapIdx fromPts _ n hn]
    simp
  · apply List.ext_get (by simp [interpPoints, hlen])
    intro n h1 h2
    have hn : n < fromPts.length := by simpa [interpPoints] using h1
    have hn2 : n < toPts.length := hlen ▸ hn
    unfold interpPoints
    rw [List.get_mapIdx fromPts _ n hn]
    rw [List.getD_eq_get _ _ hn2]
    simp

/-- Witness for C6 at two concrete equal-length point sets. -/
theorem interpPoints_boundary_witness :
    ([((0 : ℚ), (0 : ℚ)), (2, 2)] : List Point).length
        = ([((4 : ℚ), (0 : ℚ)), (0, 2)] : List Point).length
    ∧ (interpPoints [((0 : ℚ), (0 : ℚ)), (2, 2)] [((4 : ℚ), (0 : ℚ)), (0, 2)] 0
          = [((0 : ℚ), (0 : ℚ)), (2, 2)]
      ∧ interpPoints [((0 : ℚ), (0 : ℚ)), (2, 2)] [((4 : ℚ), (0 : ℚ)), (0, 2)] 1
          = [((4 : ℚ), (0 : ℚ)), (0, 2)]) :=
  ⟨rfl, interpPoints_boundary [((0 : ℚ), (0 : ℚ)), (2, 2)]
    [((4 : ℚ), (0 : ℚ)), (0, 2)] rfl⟩

/-- A scalar interpolation value stays between its endpoints. -/
theorem interp_scalar_between (a b t : ℚ) (h0 : 0 < t) (h1 : t < 1) :
    min a b ≤ a + (b - a) * t ∧ a + (b - a) * t ≤ max a b := by
  rcases le_total a b with hab | hab
  · rw [min_eq_left hab, max_eq_right hab]
    constructor <;> nlinarith
  · rw [min_eq_right hab, max_eq_left hab]
    constructor <;> nlinarith

/-- C7.  For equal-length point sets and `0 < t < 1`, every coordinate
of the interpolated point set lies (inclusively) between the
corresponding `from` and `to` coordinates. -/
theorem interpPoints_between (fromPts toPts : List Point) (t : ℚ)
    (hlen : fromPts.length = toPts.length) (h0 : 0 < t) (h1 : t < 1) :
    ∀ i, i < fromPts.length →
      (min (fromPts.getD i (0, 0)).1 (toPts.getD i (0, 0)).1
          ≤ ((interpPoints fromPts toPts t).getD i (0, 0)).1
        ∧ ((interpPoints fromPts toPts t).getD i (0, 0)).1
          ≤ max (fromPts.getD i (0, 0)).1 (toPts.getD i (0, 0)).1)
      ∧ (min (fromPts.getD i (0, 0)).2 (toPts.getD i (0, 0)).2
          ≤ ((interpPoints fromPts toPts t).getD i (0, 0)).2
        ∧ ((interpPoints fromPts toPts t).getD i (0, 0)).2
          ≤ max (fromPts.getD i (0, 0)).2 (toPts.getD i (0, 0)).2) := by
  intro i hi
  rw [interpPoints_getD fromPts toPts t i hi]
  exact ⟨interp_scalar_between _ _ t h0 h1, interp_scalar_between _ _ t h0 h1⟩

/-- Witness for C7 at concrete point sets and `t = 1/2`. -/
theorem interpPoints_between_witness :
    ([((0 : ℚ), (0 : ℚ)), (2, 2)] : List Point).length
        = ([((4 : ℚ), (0 : ℚ)), (0, 2)] : List Point).length
    ∧ (0 : ℚ) < 1 / 2 ∧ (1 : ℚ) / 2 < 1
    ∧ (∀ i, i < ([((0 : ℚ), (0 : ℚ)), (2, 2)] : List Point).length →
        (min (([((0 : ℚ), (0 : ℚ)), (2, 2)] : List Point).getD i (0, 0)).1
            (([((4 : ℚ), (0 : ℚ)), (0, 2)] : List Point).getD i (0, 0)).1
            ≤ ((interpPoints [((0 : ℚ), (0 : ℚ)), (2, 2)]
                [((4 : ℚ), (0 : ℚ)), (0, 2)] (1 / 2)).getD i (0, 0)).1
          ∧ ((interpPoints [((0 : ℚ), (0 : ℚ)), (2, 2)]
                [((4 : ℚ), (0 : ℚ)), (0, 2)] (1 / 2)).getD i (0, 0)).1
            ≤ max (([((0 : ℚ), (0 : ℚ)), (2, 2)] : List Point).getD i (0, 0)).1
                (([((4 : ℚ), (0 : ℚ)), (0, 2)] : List Point).getD i (0, 0)).1)
        ∧ (min (([((0 : ℚ), (0 : ℚ)), (2, 2)] : List Point).getD i (0, 0)).2
            (([((4 : ℚ), (0 : ℚ)), (0, 2)] : List Point).getD i (0, 0)).2
            ≤ ((interpPoints [((0 : ℚ), (0 : ℚ)), (2, 2)]
                [((4 : ℚ), (0 : ℚ)), (0, 2)] (1 / 2)).getD i (0, 0)).2
          ∧ ((interpPoints [((0 : ℚ), (0 : ℚ)), (2, 2)]
                [((4 : ℚ), (0 : ℚ)), (0, 2)] (1 / 2)).getD i (0, 0)).2
            ≤ max (([((0 : ℚ), (0 : ℚ)), (2, 2)] : List Point).getD i (0, 0)).2
                (([((4 : ℚ), (0 : ℚ)), (0, 2)] : List Point).getD i (0, 0)).2)) :=
  ⟨rfl, by norm_num, by norm_num,
    interpPoints_between [((0 : ℚ), (0 : ℚ)), (2, 2)] [((4 : ℚ), (0 : ℚ)), (0, 2)]
      (1 / 2) rfl (by norm_num) (by norm_num)⟩

/-! Engine state machine (C8, C9). -/

/-- With a valid cursor and a nonempty library, `morphShape` kills any
in-flight tween, resets `morphState.t` to `0`, advances the cursor by
`(i + d + L) tmod L`, and installs a tween whose source is the library
entry at the previous cursor and whose target is the aligned entry at
the new cursor — regardless of the previous `morphT` and tween. -/
theorem morphShape_valid_eq (e : MorphEngine) (d : Bool) (i : ℕ)
    (hidx : e.shapeIndex = some (i : ℤ)) (hi : i < e.shapesPoints.length) :
    morphShape e d
      = { e with
          shapeIndex := some (((i : ℤ) + (if d then 1 else -1)
              + (e.shapesPoints.length : ℤ)).tmod (e.shapesPoints.length : ℤ)),
          morphT := 0,
          tween := some (e.shapesPoints.getD i [],
            rotateToMatch (e.shapesPoints.getD i [])
              (e.shapesPoints.getD
                ((((i : ℤ) + (if d then 1 else -1)
                    + (e.shapesPoints.length : ℤ)).tmod
                  (e.shapesPoints.length : ℤ)).toNat) [])) } := by
  have hfrom : jsIndex e.shapesPoints e.shapeIndex
      = some (e.shapesPoints.getD i []) := by
    rw [hidx]
    simp only [jsIndex, Int.toNat_natCast]
    rw [if_pos (by omega : (0 : ℤ) ≤ (i : ℤ))]
    rw [List.get?_eq_get hi, List.getD_eq_get _ _ hi]
  have hLne : (e.shapesPoints.length : ℤ) ≠ 0 := by omega
  have hadv : jsAdvanceIndex e.shapeIndex (if d then 1 else -1)
        (e.shapesPoints.length : ℤ)
      = some (((i : ℤ) + (if d then 1 else -1)
          + (e.shapesPoints.length : ℤ)).tmod (e.shapesPoints.length : ℤ)) := by
    rw [hidx]
    simp only [jsAdvanceIndex]
    rw [if_neg hLne]
  have hdvd : (0 : ℤ) ≤ (i : ℤ) + (if d then 1 else -1)
      + (e.shapesPoints.length : ℤ) := by
    cases d <;> simp <;> omega
  have hj0 : (0 : ℤ) ≤ ((i : ℤ) + (if d then 1 else -1)
      + (e.shapesPoints.length : ℤ)).tmod (e.shapesPoints.length : ℤ) :=
    Int.tmod_nonneg _ hdvd
  have hjL : ((i : ℤ) + (if d then 1 else -1)
        + (e.shapesPoints.length : ℤ)).tmod (e.shapesPoints.length : ℤ)
      < (e.shapesPoints.length : ℤ) :=
    Int.tmod_lt_of_pos _ (by omega)
  have hjn : (((i : ℤ) + (if d then 1 else -1)
        + (e.shapesPoints.length : ℤ)).tmod (e.shapesPoints.length : ℤ)).toNat
      < e.shapesPoints.length := by omega
  have hto : jsIndex e.shapesPoints
        (some (((i : ℤ) + (if d then 1 else -1)
          + (e.shapesPoints.length : ℤ)).tmod (e.shapesPoints.length : ℤ)))
      = some (e.shapesPoints.getD
          ((((i : ℤ) + (if d then 1 else -1)
            + (e.shapesPoints.length : ℤ)).tmod
              (e.shapesPoints.length : ℤ)).toNat) []) := by
    simp only [jsIndex]
    rw [if_pos hj0, List.get?_eq_get hjn, List.getD_eq_get _ _ hjn]
  simp only [morphShape]
  rw [hadv, hfrom, hto]

/-- C8.  Advancing while a transition is in flight (any `morphT`, e.g.
`1/2`) immediately cancels it: `morphState.t` is reset to `0`, the
cursor moves to `(i + d + L) tmod L`, the new tween runs from the
PointSet at the previous library index `i` to the aligned entry at the
new index, and every point set subsequently emitted is the two-shape
interpolation of exactly that pair — never a blend of three shapes. -/
theorem morphShape_cancels_inflight (e : MorphEngine) (d : Bool) (i : ℕ)
    (hidx : e.shapeIndex = some (i : ℤ)) (hi : i < e.shapesPoints.length) :
    (morphShape e d).morphT = 0
    ∧ (morphShape e d).shapeIndex
        = some (((i : ℤ) + (if d then 1 else -1)
            + (e.shapesPoints.length : ℤ)).tmod (e.shapesPoints.length : ℤ))
    ∧ (morphShape e d).tween
        = some (e.shapesPoints.getD i [],
            rotateToMatch (e.shapesPoints.getD i [])
              (e.shapesPoints.getD
                ((((i : ℤ) + (if d then 1 else -1)
                    + (e.shapesPoints.length : ℤ)).tmod
                  (e.shapesPoints.length : ℤ)).toNat) []))
    ∧ ∀ t : ℚ,
        emitPoints { morphShape e d with morphT := t }
          = some (interpPoints (e.shapesPoints.getD i [])
              (rotateToMatch (e.shapesPoints.getD i [])
                (e.shapesPoints.getD
                  ((((i : ℤ) + (if d then 1 else -1)
                      + (e.shapesPoints.length : ℤ)).tmod
                    (e.shapesPoints.length : ℤ)).toNat) [])) t) := by
  rw [morphShape_valid_eq e d i hidx hi]
  exact ⟨rfl, rfl, rfl, fun t => rfl⟩

/-- A concrete in-flight engine: two-shape library, cursor `0`,
`morphT = 1/2`, a live tween. -/
def inflightEngine : MorphEngine :=
  { shapesPoints := [[((0 : ℚ), (0 : ℚ))], [((1 : ℚ), (1 : ℚ))]],
    shapeIndex := some 0,
    morphT := 1 / 2,
    tween := some ([((9 : ℚ), (9 : ℚ))], [((8 : ℚ), (8 : ℚ))]) }

/-- Witness for C8 at `inflightEngine` (an advance fired at `t = 1/2`). -/
theorem morphShape_cancels_inflight_witness :
    inflightEngine.shapeIndex = some ((0 : ℕ) : ℤ)
    ∧ (0 : ℕ) < inflightEngine.shapesPoints.length
    ∧ ((morphShape inflightEngine true).morphT = 0
      ∧ (morphShape inflightEngine true).shapeIndex
          = some ((((0 : ℕ) : ℤ) + (if true then 1 else -1)
              + (inflightEngine.shapesPoints.length : ℤ)).tmod
            (inflightEngine.shapesPoints.length : ℤ))
      ∧ (morphShape inflightEngine true).tween
          = some (inflightEngine.shapesPoints.getD 0 [],
              rotateToMatch (inflightEngine.shapesPoints.getD 0 [])
                (inflightEngine.shapesPoints.getD
                  (((((0 : ℕ) : ℤ) + (if true then 1 else -1)
                      + (inflightEngine.shapesPoints.length : ℤ)).tmod
                    (inflightEngine.shapesPoints.length : ℤ)).toNat) []))
      ∧ ∀ t : ℚ,
          emitPoints { morphShape inflightEngine true with morphT := t }
            = some (interpPoints (inflightEngine.shapesPoints.getD 0 [])
                (rotateToMatch (inflightEngine.shapesPoints.getD 0 [])
                  (inflightEngine.shapesPoints.getD
                    (((((0 : ℕ) : ℤ) + (if true then 1 else -1)
                        + (inflightEngine.shapesPoints.length : ℤ)).tmod
                      (inflightEngine.shapesPoints.length : ℤ)).toNat) [])) t)) :=
  ⟨rfl, by norm_num [inflightEngine],
    morphShape_cancels_inflight inflightEngine true 0 rfl (by norm_num [inflightEngine])⟩

/-- C9 counterexample.  With a library of size `0` (and cursor `0`,
mid-flight `t = 1/2`), `morphShape` is not a no-op on the engine state:
the cursor mutation `(0 + 1 + 0) % 0` happens before the early return
and clobbers `shapeIndex` with `NaN` (modelled `none`). -/
theorem morphShape_empty_library_not_noop :
    morphShape
        { shapesPoints := [], shapeIndex := some 0, morphT := 1 / 2, tween := none }
        true
      ≠ { shapesPoints := [], shapeIndex := some 0, morphT := 1 / 2, tween := none } := by
  have hstep : morphShape
        { shapesPoints := [], shapeIndex := some 0, morphT := 1 / 2, tween := none }
        true
      = { shapesPoints := [], shapeIndex := none, morphT := 1 / 2, tween := none } := rfl
  rw [hstep]
  intro h
  have h2 := congrArg MorphEngine.shapeIndex h
  simp at h2

/-- C9 amended.  With a library of size `0`, `morphShape` starts no
transition and raises no error — `morphT`, the tween and hence the
rendered output are untouched — but it is not a complete no-op: the
cursor is overwritten with the invalid `NaN` index (modelled `none`),
because the modular cursor update executes before the early return. -/
theorem morphShape_empty_library_amended (e : MorphEngine)
    (hlib : e.shapesPoints = []) (d : Bool) :
    morphShape e d = { e with shapeIndex := none } := by
  have hfrom : jsIndex e.shapesPoints e.shapeIndex = none := by
    rw [hlib]
    cases e.shapeIndex with
    | none => rfl
    | some v => simp [jsIndex]
  have hadv : jsAdvanceIndex e.shapeIndex (if d then 1 else -1)
      (e.shapesPoints.length : ℤ) = none := by
    cases e.shapeIndex with
    | none => rfl
    | some v => simp [jsAdvanceIndex, hlib]
  simp only [morphShape]
  rw [hadv, hfrom]

/-- Witness for the amended C9 theorem at a concrete empty-library
engine. -/
theorem morphShape_empty_library_amended_witness :
    ({ shapesPoints := []
     , shapeIndex := some 0
     , morphT := (1 : ℚ) / 2
     , tween := none } : MorphEngine).shapesPoints = []
    ∧ morphShape
        { shapesPoints := [], shapeIndex := some 0, morphT := 1 / 2, tween := none }
        false
      = { ({ shapesPoints := []
           , shapeIndex := some 0
           , morphT := (1 : ℚ) / 2
           , tween := none } : MorphEngine) with shapeIndex := none } :=
  ⟨rfl, morphShape_empty_library_amended
    { shapesPoints := [], shapeIndex := some 0, morphT := 1 / 2, tween := none }
    rfl false⟩

/-! Frame effects (C10). -/

/-- Reading an extended store below the old length sees the old
contents. -/
theorem readRef_append_lt (s : Store) (v : List Point) (q : Ref)
    (h : q < s.length) :
    readRef (s ++ [v]) q = readRef s q := by
  unfold readRef
  exact List.getD_append s [v] [] q h

/-- Reading an extended store at the fresh reference sees the new
array. -/
theorem readRef_append_self (s : Store) (v : List Point) :
    readRef (s ++ [v]) s.length = v := by
  unfold readRef
  rw [List.getD_eq_getElem _ _ (by simp)]
  exact List.getElem_concat_length s v s.length rfl _

/-- Writing one reference leaves every other allocated reference
unchanged. -/
theorem readRef_set_ne (s : Store) (r q : Ref) (v : List Point)
    (h : q ≠ r) (hq : q < s.length) :
    readRef (s.set r v) q = readRef s q := by
  unfold readRef
  rw [List.getD_eq_getElem _ _ (by simpa using hq), List.getD_eq_getElem _ _ hq]
  exact List.getElem_set_ne (Ne.symm h) _

/-- Reading back an in-range write. -/
theorem readRef_set_self (s : Store) (r : Ref) (v : List Point)
    (hr : r < s.length) :
    readRef (s.set r v) r = v := by
  unfold readRef
  rw [List.getD_eq_getElem _ _ (by simpa using hr)]
  exact List.getElem_set_self _

/-- Unfolding the store-level winding normalizer. -/
theorem normalizeWindingImp_eq (s : Store) (r : Ref) (clockwise : Bool) :
    normalizeWindingImp s r clockwise
      = if decide (polygonArea (readRef s r) < 0) = clockwise then (s, r)
        else ((s ++ [readRef s r]).set s.length
                (readRef (s ++ [readRef s r]) s.length).reverse,
              s.length) := rfl

/-- C10.  Neither operation mutates its argument arrays: after
`normalizeWindingImp` and after `rotateToMatchImp`, every array
allocated in the pre-state (in particular each argument) holds exactly
the points it held before, and the returned reference holds the value
of the corresponding pure function — `normalizeWinding` returns the
argument reference itself on an orientation match and otherwise a
freshly-built reversed copy, while `rotateToMatch` always returns a
freshly-built rotated copy. -/
theorem imp_preserve_arguments (s : Store) (r rf rt : Ref) (clockwise : Bool)
    (hr : r < s.length) (hf : rf < s.length) (ht : rt < s.length) :
    (∀ q, q < s.length →
        readRef (normalizeWindingImp s r clockwise).1 q = readRef s q)
    ∧ readRef (normalizeWindingImp s r clockwise).1
          (normalizeWindingImp s r clockwise).2
        = normalizeWinding (readRef s r) clockwise
    ∧ (∀ q, q < s.length →
        readRef (rotateToMatchImp s rf rt).1 q = readRef s q)
    ∧ readRef (rotateToMatchImp s rf rt).1 (rotateToMatchImp s rf rt).2
        = rotateToMatch (readRef s rf) (readRef s rt) := by
  have hread : readRef (s ++ [readRef s r]) s.length = readRef s r :=
    readRef_append_self s _
  refine ⟨?_, ?_, ?_, ?_⟩
  · intro q hq
    rw [normalizeWindingImp_eq]
    by_cases hb : decide (polygonArea (readRef s r) < 0) = clockwise
    · rw [if_pos hb]
    · rw [if_neg hb]
      dsimp only
      rw [hread]
      have h1 : q ≠ s.length := by omega
      have h2 : q < (s ++ [readRef s r]).length := by
        rw [List.length_append]
        omega
      rw [readRef_set_ne (s ++ [readRef s r]) s.length q
          ((readRef s r).reverse) h1 h2,
        readRef_append_lt s _ q hq]
  · rw [normalizeWindingImp_eq]
    by_cases hb : decide (polygonArea (readRef s r) < 0) = clockwise
    · rw [if_pos hb]
      dsimp only
      rw [normalizeWinding_eq_branch, if_pos hb]
    · rw [if_neg hb]
      dsimp only
      rw [hread, readRef_set_self _ _ _ (by simp),
        normalizeWinding_eq_branch, if_neg hb]
  · intro q hq
    exact readRef_append_lt s _ q hq
  · exact readRef_append_self s _

/-- A concrete two-array store for the C10 witness. -/
def witnessStore : Store :=
  [[((0 : ℚ), (0 : ℚ)), (1, 0), (0, 1)], [((1 : ℚ), (1 : ℚ)), (0, 1), (0, 0)]]

/-- Witness for C10 on `witnessStore` with `r = 0`, `rf = 0`,
`rt = 1`. -/
theorem imp_preserve_arguments_witness :
    (0 : ℕ) < witnessStore.length
    ∧ (1 : ℕ) < witnessStore.length
    ∧ ((∀ q, q < witnessStore.length →
          readRef (normalizeWindingImp witnessStore 0 true).1 q
            = readRef witnessStore q)
      ∧ readRef (normalizeWindingImp witnessStore 0 true).1
            (normalizeWindingImp witnessStore 0 true).2
          = normalizeWinding (readRef witnessStore 0) true
      ∧ (∀ q, q < witnessStore.length →
          readRef (rotateToMatchImp witnessStore 0 1).1 q
            = readRef witnessStore q)
      ∧ readRef (rotateToMatchImp witnessStore 0 1).1
            (rotateToMatchImp witnessStore 0 1).2
          = rotateToMatch (readRef witnessStore 0) (readRef witnessStore 1)) :=
  ⟨by norm_num [witnessStore], by norm_num [witnessStore],
    imp_preserve_arguments witnessStore 0 0 1 true
      (by norm_num [witnessStore]) (by norm_num [witnessStore])
      (by norm_num [witnessStore])⟩

end Lantrn
